import Mathlib

/-!
Shallow embedding of the `Ledger` class from `src/main.js` of the Chain
repository: an append-only block log replicated by gossip, with
put/get/get_history/get_all accessors and a bounded-retry read path.
Operations of the `Chain` block store collaborator (`./chain`, not among
the given sources) are modelled from the specification's BlockStore
contract and marked as such.
-/

/-- Data payload of a block: the key/value pair written by `put`. -/
structure BlockData where
  key : String
  value : Int
deriving DecidableEq, Repr

/-- A block of the chain. `data` is an Option: a JavaScript block object may
carry an undefined `data` property, and reading `.key` off it throws. -/
structure Block where
  block_id : Nat
  data : Option BlockData
deriving DecidableEq, Repr

/-- JavaScript runtime errors the embedded code can raise. -/
inductive JsError where
  | typeError
deriving DecidableEq, Repr

/-- Result of `Ledger.get` as seen by its caller. -/
inductive GetResult where
  | data (d : BlockData)
  | sentinel
  | undef
deriving DecidableEq, Repr

/-- Outbound effects: messages handed to `node.send` plus scheduled
`setTimeout` retries. -/
inductive OutMsg where
  | blockMapRequest (peer : Nat)
  | blockMapResponse (peer : Nat) (ids : List Nat)
  | requestBlock (block_id : Nat)
  | blockBroadcast (b : Block)
  | keyRequest (key : String)
  | retryTimer (delay : Nat) (key : String)
deriving DecidableEq, Repr

/-- An `{id, length}` entry of `this.chain_lengths`. -/
structure ChainReport where
  id : Nat
  length : Nat
deriving DecidableEq, Repr

/-- State of one `Ledger` instance (src/main.js). `blocks` models
`this.chain.blocks`. `core` models the `this.core` property read inside the
catch-all listener: the constructor never assigns it (only `this.node.core`
exists), so it is `none` on every constructor-reachable state. -/
structure Ledger where
  name : String
  blocks : List Block
  chain_lengths : List ChainReport
  missing_blocks : List Nat
  received_blocks : List Block
  errors : List JsError
  retries : Nat
  tries : Nat
  core : Option (List Nat)
deriving DecidableEq, Repr

/-- The `Ledger` constructor state (src/main.js lines 9-83). -/
def ledgerInit (name : String) : Ledger :=
  { name := name, blocks := [], chain_lengths := [], missing_blocks := [],
    received_blocks := [], errors := [], retries := 3, tries := 0, core := none }

/-- Modelled from the spec: `BlockStore.append(payload)` creates and stores a
new block and returns it; the fresh `block_id` is modelled as the current
block count. -/
def chainPut (bs : List Block) (d : BlockData) : Block × List Block :=
  (⟨bs.length, some d⟩, bs ++ [⟨bs.length, some d⟩])

/-- Modelled from the spec: `BlockStore.add(block)` idempotently incorporates
a remote block (no-op if `block_id` is already present). -/
def chainAdd (bs : List Block) (b : Block) : List Block :=
  if bs.any (fun c => c.block_id == b.block_id) then bs else bs ++ [b]

/-- Modelled from the spec: `Chain.mapBlocks` is the inventory snapshot of
held block identities. -/
def mapBlocks (bs : List Block) : List Nat :=
  bs.map (fun b => b.block_id)

/-- Modelled from the spec: `Chain.compare(remote_map)` is the diff: the
identities present remotely and absent locally. -/
def chainCompare (bs : List Block) (remote : List Nat) : List Nat :=
  remote.filter (fun i => !(bs.any (fun b => b.block_id == i)))

/-- Helper of `sortBlocks`: ordered insertion by `block_id`. -/
def insertBlock (b : Block) : List Block → List Block
  | [] => [b]
  | c :: rest => if b.block_id ≤ c.block_id then b :: c :: rest else c :: insertBlock b rest

/-- Modelled from the spec: `Chain.sortBlocks` reorders the held blocks into
canonical deterministic order; modelled as sorting by `block_id`. -/
def sortBlocks (bs : List Block) : List Block :=
  bs.foldr insertBlock []

/-- The reversed-scan find of `Ledger.get` (src/main.js line 105), composed
with reading `found.data`: evaluating the predicate on a block whose `data`
is undefined throws a TypeError. -/
def findDataByKey (key : String) : List Block → Except JsError (Option BlockData)
  | [] => Except.ok none
  | b :: rest =>
    match b.data with
    | none => Except.error JsError.typeError
    | some d => if d.key == key then Except.ok (some d) else findDataByKey key rest

/-- `Ledger.get` (src/main.js lines 103-125): newest-first scan; on hit reset
`tries` and return the data; on miss within budget send a key request and
schedule a retry after `(tries+1)*500` ms; on exhausted budget return the
sentinel "unable to find."; a thrown scan error is caught and pushed onto
`errors`, the call returning undefined. -/
def Ledger.get (s : Ledger) (key : String) : GetResult × Ledger × List OutMsg :=
  match findDataByKey key s.blocks.reverse with
  | Except.error e => (GetResult.undef, { s with errors := s.errors ++ [e] }, [])
  | Except.ok (some d) => (GetResult.data d, { s with tries := 0 }, [])
  | Except.ok none =>
    if s.tries < s.retries then
      (GetResult.undef, { s with tries := s.tries + 1 },
        [OutMsg.keyRequest key, OutMsg.retryTimer ((s.tries + 1) * 500) key])
    else
      (GetResult.sentinel, s, [])

/-- Body of `get_history` (src/main.js line 134):
filter by `b.data.key === key` then map to `b.data`; the predicate throws on
a block with undefined `data`. -/
def historyBody (key : String) : List Block → Except JsError (List BlockData)
  | [] => Except.ok []
  | b :: rest =>
    match b.data with
    | none => Except.error JsError.typeError
    | some d =>
      match historyBody key rest with
      | Except.error e => Except.error e
      | Except.ok tail => Except.ok (if d.key == key then d :: tail else tail)

/-- `Ledger.get_history` (src/main.js lines 132-139): the filtered scan in a
try/catch that logs a thrown error and returns undefined. -/
def Ledger.get_history (s : Ledger) (key : String) :
    Option (List BlockData) × Ledger × List OutMsg :=
  match historyBody key s.blocks with
  | Except.error e => (none, { s with errors := s.errors ++ [e] }, [])
  | Except.ok l => (some l, s, [])

/-- The first-occurrence filter of `get_all` (src/main.js lines 148-154):
walk the reversed entries keeping the first occurrence of each key; reading
`.key` off an undefined entry throws. -/
def dedupEntries (seen : List String) : List (Option BlockData) → Except JsError (List BlockData)
  | [] => Except.ok []
  | none :: _ => Except.error JsError.typeError
  | some d :: rest =>
    match dedupEntries (d.key :: seen) rest with
    | Except.error e => Except.error e
    | Except.ok tail => Except.ok (if d.key ∈ seen then tail else d :: tail)

/-- Body of `get_all` (src/main.js lines 147-155): map blocks to their data,
reverse, then apply the first-occurrence filter. -/
def allBody (bs : List Block) : Except JsError (List BlockData) :=
  dedupEntries [] (bs.map (fun b => b.data)).reverse

/-- `Ledger.get_all` (src/main.js lines 145-160): the scan in a try/catch
that logs a thrown error and returns undefined. -/
def Ledger.get_all (s : Ledger) : Option (List BlockData) × Ledger × List OutMsg :=
  match allBody s.blocks with
  | Except.error e => (none, { s with errors := s.errors ++ [e] }, [])
  | Except.ok l => (some l, s, [])

/-- Value of the first-occurrence filter on entries that are all defined. -/
def dedupPure (seen : List String) : List BlockData → List BlockData
  | [] => []
  | d :: rest =>
    if d.key ∈ seen then dedupPure (d.key :: seen) rest
    else d :: dedupPure (d.key :: seen) rest

/-- `Ledger.put` parameterized by the outcome of the collaborator call
`this.chain.put({key, value})`: `put` has no try/catch, so an append error
propagates to the caller and neither a broadcast nor an error-log entry is
produced. -/
def Ledger.putWith (append : List Block → BlockData → Except JsError (Block × List Block))
    (s : Ledger) (key : String) (value : Int) :
    Except JsError Block × Ledger × List OutMsg :=
  match append s.blocks ⟨key, value⟩ with
  | Except.error e => (Except.error e, s, [])
  | Except.ok (b, bs) => (Except.ok b, { s with blocks := bs }, [OutMsg.blockBroadcast b])

/-- `Ledger.put` (src/main.js lines 91-95) with the non-throwing modelled
append: append the new block, broadcast it, return it. -/
def Ledger.put (s : Ledger) (key : String) (value : Int) :
    Except JsError Block × Ledger × List OutMsg :=
  Ledger.putWith (fun bs d => Except.ok (chainPut bs d)) s key value

/-- Payloads of the catch-all `listen({from:""})` channel. -/
inductive GossipMsg where
  | lengthMsg (n : Nat)
  | blockMapReq
  | blockMap (ids : List Nat)
  | other
deriving DecidableEq, Repr

/-- Result of running one message handler: the new state, the messages sent
before any throw, and the error the handler raised, if any. -/
structure HandlerResult where
  state : Ledger
  sent : List OutMsg
  thrown : Option JsError
deriving DecidableEq, Repr

/-- Data dispatch of the catch-all handler (src/main.js lines 30-34):
record a truthy length report, answer a block-map request with the local
inventory, or diff a received block map and request each missing block. -/
def dataPhase (s : Ledger) (msg : GossipMsg) (senderId : Nat) : Ledger × List OutMsg :=
  match msg with
  | GossipMsg.lengthMsg n =>
    if n == 0 then (s, [])
    else ({ s with chain_lengths := s.chain_lengths ++ [⟨senderId, n⟩] }, [])
  | GossipMsg.blockMapReq => (s, [OutMsg.blockMapResponse senderId (mapBlocks s.blocks)])
  | GossipMsg.blockMap ids =>
    let missing := chainCompare s.blocks ids
    ({ s with missing_blocks := missing }, missing.map OutMsg.requestBlock)
  | GossipMsg.other => (s, [])

/-- The catch-all `listen({from:""})` handler (src/main.js lines 29-39):
after the data dispatch it unconditionally evaluates
`Object.keys(this.core.getPeers()).length`. The constructor never assigns
`this.core` (only `this.node.core`), so on a constructor-reachable state
(`core = none`) this read throws a TypeError and the quorum branch
(`selectChain` over `chain_lengths`, sending block-map requests to peers
whose reported length exceeds the local length) is unreachable. -/
def Ledger.handleFromAny (s : Ledger) (msg : GossipMsg) (senderId : Nat) : HandlerResult :=
  let r := dataPhase s msg senderId
  match r.1.core with
  | none => ⟨r.1, r.2, some JsError.typeError⟩
  | some peers =>
    if peers.length ≤ r.1.chain_lengths.length then
      ⟨r.1, r.2 ++ r.1.chain_lengths.filterMap (fun c =>
          if r.1.blocks.length < c.length then some (OutMsg.blockMapRequest c.id) else none),
        none⟩
    else ⟨r.1, r.2, none⟩

/-- The `listen("requested_block")` handler (src/main.js lines 47-59): a
foreign block is pushed onto `received_blocks` and added to the chain; then,
whenever the received count equals the missing count, the chain is re-sorted
and both session sets are cleared. -/
def Ledger.handleRequestedBlock (s : Ledger) (b : Block) (sender : String) : Ledger :=
  let s1 := if sender == s.name then s
            else { s with received_blocks := s.received_blocks ++ [b],
                          blocks := chainAdd s.blocks b }
  if s1.missing_blocks.length == s1.received_blocks.length then
    { s1 with blocks := sortBlocks s1.blocks, missing_blocks := [], received_blocks := [] }
  else s1

/-- Deliver a list of requested blocks from one peer, in order. -/
def deliverAll (s : Ledger) (bs : List Block) (sender : String) : Ledger :=
  bs.foldl (fun st b => Ledger.handleRequestedBlock st b sender) s

/-- Accumulate blocks through the store's idempotent `add`. -/
def addAll (bs : List Block) (incoming : List Block) : List Block :=
  incoming.foldl chainAdd bs

/-- Tests whether an outbound effect is a scheduled retry. -/
def isRetryTimer : OutMsg → Bool
  | OutMsg.retryTimer _ _ => true
  | _ => false

/-- Drive one `get` call chain: run `Ledger.get`, and while the step
scheduled a retry timer, run the rescheduled `get` on the resulting state,
accumulating every outbound message. `fuel` bounds the recursion; the final
`GetResult` is the one produced by the last invocation of the chain. -/
def getRetryRun (key : String) : Nat → Ledger → Ledger × List OutMsg × Option GetResult
  | 0, s => (s, [], none)
  | fuel+1, s =>
    match Ledger.get s key with
    | (r, s1, outs) =>
      if outs.any isRetryTimer then
        match getRetryRun key fuel s1 with
        | (s2, outs2, r2) => (s2, outs ++ outs2, r2)
      else (s1, outs, some r)

/-! Helper lemmas about the read path. -/

/-- A scan over blocks that all carry data whose key differs from `key`
finds nothing and throws nothing. -/
theorem findDataByKey_absent (key : String) (bs : List Block)
    (h : ∀ b ∈ bs, ∃ d, b.data = some d ∧ d.key ≠ key) :
    findDataByKey key bs = Except.ok none := by
  induction bs with
  | nil => rfl
  | cons b rest ih =>
    obtain ⟨d, hd, hk⟩ := h b (List.mem_cons_self b rest)
    have hrest : findDataByKey key rest = Except.ok none :=
      ih (fun c hc => h c (List.mem_cons_of_mem b hc))
    simp [findDataByKey, hd, hk, hrest]

/-- On a miss within budget, `get` increments `tries`, sends a key request
and schedules a retry after `(tries+1)*500` ms, returning undefined. -/
theorem Ledger.get_miss (s : Ledger) (key : String)
    (hlt : s.tries < s.retries)
    (habs : ∀ b ∈ s.blocks, ∃ d, b.data = some d ∧ d.key ≠ key) :
    Ledger.get s key =
      (GetResult.undef, { s with tries := s.tries + 1 },
       [OutMsg.keyRequest key, OutMsg.retryTimer ((s.tries + 1) * 500) key]) := by
  have h1 : findDataByKey key s.blocks.reverse = Except.ok none :=
    findDataByKey_absent key s.blocks.reverse
      (fun b hb => habs b (List.mem_reverse.mp hb))
  simp [Ledger.get, h1, hlt]

/-- On a miss with the budget exhausted, `get` returns the sentinel, sends
nothing, schedules nothing and leaves the state unchanged. -/
theorem Ledger.get_exhausted (s : Ledger) (key : String)
    (hge : ¬ s.tries < s.retries)
    (habs : ∀ b ∈ s.blocks, ∃ d, b.data = some d ∧ d.key ≠ key) :
    Ledger.get s key = (GetResult.sentinel, s, []) := by
  have h1 : findDataByKey key s.blocks.reverse = Except.ok none :=
    findDataByKey_absent key s.blocks.reverse
      (fun b hb => habs b (List.mem_reverse.mp hb))
  simp [Ledger.get, h1, hge]

/-! Claim theorems. -/

/-- C1: the claim says that after peer connections the node sends block-map
requests exactly once the accumulated length reports reach the number of
connected peers, to the peers reporting longer chains, with no error
otherwise. The code cannot do this: the catch-all handler reads
`this.core.getPeers()` but the constructor never assigns `this.core`, so on
the constructor-reachable state every incoming report is recorded and then
the handler throws a TypeError before the quorum check; in the spec's own
scenario (local length 4, three peers reporting 2, 5, 7) all three reports
are collected, every round throws, and no block-map request is ever sent. -/
theorem quorum_round_throws_on_reports :
    (let s0 : Ledger := { ledgerInit "n" with blocks :=
      [⟨0, some ⟨"a", 0⟩⟩, ⟨1, some ⟨"b", 1⟩⟩, ⟨2, some ⟨"c", 2⟩⟩, ⟨3, some ⟨"d", 3⟩⟩] }
     let r1 := Ledger.handleFromAny s0 (GossipMsg.lengthMsg 2) 1
     let r2 := Ledger.handleFromAny r1.state (GossipMsg.lengthMsg 5) 2
     let r3 := Ledger.handleFromAny r2.state (GossipMsg.lengthMsg 7) 3
     r1.thrown = some JsError.typeError ∧ r1.sent = [] ∧
     r2.thrown = some JsError.typeError ∧ r2.sent = [] ∧
     r3.thrown = some JsError.typeError ∧ r3.sent = [] ∧
     r3.state.chain_lengths = [⟨1, 2⟩, ⟨2, 5⟩, ⟨3, 7⟩]) := by
  decide

/-- C5: for every key and value, `get` invoked immediately after `put`
returns the freshly written `{key, value}` as a hit on the first local scan,
sending no key request and scheduling no retry, and the hit resets the retry
counter to zero; `put` itself appends the block, broadcasts it and returns
it. -/
theorem put_then_get_hits (s : Ledger) (k : String) (v : Int) :
    Ledger.put s k v =
      (Except.ok ⟨s.blocks.length, some ⟨k, v⟩⟩,
       { s with blocks := s.blocks ++ [⟨s.blocks.length, some ⟨k, v⟩⟩] },
       [OutMsg.blockBroadcast ⟨s.blocks.length, some ⟨k, v⟩⟩]) ∧
    Ledger.get { s with blocks := s.blocks ++ [⟨s.blocks.length, some ⟨k, v⟩⟩] } k =
      (GetResult.data ⟨k, v⟩,
       { s with blocks := s.blocks ++ [⟨s.blocks.length, some ⟨k, v⟩⟩], tries := 0 },
       []) := by
  constructor
  · rfl
  · simp [Ledger.get, List.reverse_append, findDataByKey]

/-- C7: an exception raised during the scan of `get`, `get_history` or
`get_all` is caught at the accessor boundary, appended to the in-memory
error log, and not propagated: the caller receives undefined (the totality
of the three accessors is by construction of their types). -/
theorem accessor_catches_and_logs (s : Ledger) (key : String) (e : JsError) :
    (findDataByKey key s.blocks.reverse = Except.error e →
      Ledger.get s key = (GetResult.undef, { s with errors := s.errors ++ [e] }, [])) ∧
    (historyBody key s.blocks = Except.error e →
      Ledger.get_history s key = (none, { s with errors := s.errors ++ [e] }, [])) ∧
    (allBody s.blocks = Except.error e →
      Ledger.get_all s = (none, { s with errors := s.errors ++ [e] }, [])) := by
  refine ⟨fun h => ?_, fun h => ?_, fun h => ?_⟩ <;>
    simp [Ledger.get, Ledger.get_history, Ledger.get_all, h]

/-- Witness for C7: a chain holding one block with undefined `data` makes
all three scan bodies throw; each accessor logs the error and returns
undefined. -/
theorem accessor_catches_and_logs_witness :
    (findDataByKey "k" ({ ledgerInit "n" with blocks := [⟨0, none⟩] } : Ledger).blocks.reverse =
      Except.error JsError.typeError) ∧
    Ledger.get { ledgerInit "n" with blocks := [⟨0, none⟩] } "k" =
      (GetResult.undef,
       { ({ ledgerInit "n" with blocks := [⟨0, none⟩] } : Ledger) with
         errors := ({ ledgerInit "n" with blocks := [⟨0, none⟩] } : Ledger).errors ++ [JsError.typeError] },
       []) ∧
    Ledger.get_history { ledgerInit "n" with blocks := [⟨0, none⟩] } "k" =
      (none,
       { ({ ledgerInit "n" with blocks := [⟨0, none⟩] } : Ledger) with
         errors := ({ ledgerInit "n" with blocks := [⟨0, none⟩] } : Ledger).errors ++ [JsError.typeError] },
       []) ∧
    Ledger.get_all { ledgerInit "n" with blocks := [⟨0, none⟩] } =
      (none,
       { ({ ledgerInit "n" with blocks := [⟨0, none⟩] } : Ledger) with
         errors := ({ ledgerInit "n" with blocks := [⟨0, none⟩] } : Ledger).errors ++ [JsError.typeError] },
       []) :=
  ⟨rfl,
   (accessor_catches_and_logs { ledgerInit "n" with blocks := [⟨0, none⟩] } "k" JsError.typeError).1 rfl,
   (accessor_catches_and_logs { ledgerInit "n" with blocks := [⟨0, none⟩] } "k" JsError.typeError).2.1 rfl,
   (accessor_catches_and_logs { ledgerInit "n" with blocks := [⟨0, none⟩] } "k" JsError.typeError).2.2 rfl⟩

/-- C8: the retry counter lives on the instance; once `tries` equals
`retries`, a `get` for any key absent from the chain returns the sentinel
immediately, sends no key request, schedules no retry, and leaves the state
(including `tries`) unchanged, so every subsequent absent-key `get` behaves
the same as long as no intervening hit resets the counter. -/
theorem retry_budget_sticky (s : Ledger) (key : String)
    (hex : s.tries = s.retries)
    (habs : ∀ b ∈ s.blocks, ∃ d, b.data = some d ∧ d.key ≠ key) :
    Ledger.get s key = (GetResult.sentinel, s, []) :=
  Ledger.get_exhausted s key (by omega) habs

/-- Witness for C8: a ledger with an empty chain and `tries = retries = 3`
answers a `get` for "k" with the sentinel at once, unchanged. -/
theorem retry_budget_sticky_witness :
    (({ ledgerInit "n" with tries := 3 } : Ledger).tries =
      ({ ledgerInit "n" with tries := 3 } : Ledger).retries) ∧
    Ledger.get { ledgerInit "n" with tries := 3 } "k" =
      (GetResult.sentinel, { ledgerInit "n" with tries := 3 }, []) :=
  ⟨rfl, retry_budget_sticky { ledgerInit "n" with tries := 3 } "k" rfl
    (by intro b hb; simp [ledgerInit] at hb)⟩

/-- C9: when the key is absent and the budget is not exhausted, the
synchronous invocation of `get` returns undefined - neither the data nor the
sentinel - while sending one key request and scheduling one retry
continuation; any visible value is produced only by a later invocation of
the chain, whose result goes to the timer. -/
theorem miss_within_budget_returns_undef (s : Ledger) (key : String)
    (hlt : s.tries < s.retries)
    (habs : ∀ b ∈ s.blocks, ∃ d, b.data = some d ∧ d.key ≠ key) :
    Ledger.get s key =
      (GetResult.undef, { s with tries := s.tries + 1 },
       [OutMsg.keyRequest key, OutMsg.retryTimer ((s.tries + 1) * 500) key]) :=
  Ledger.get_miss s key hlt habs

/-- Witness for C9: a fresh ledger misses on "k", returns undefined, sends
the key request and schedules the 500 ms retry. -/
theorem miss_within_budget_returns_undef_witness :
    ((ledgerInit "n").tries < (ledgerInit "n").retries) ∧
    Ledger.get (ledgerInit "n") "k" =
      (GetResult.undef, { ledgerInit "n" with tries := (ledgerInit "n").tries + 1 },
       [OutMsg.keyRequest "k", OutMsg.retryTimer (((ledgerInit "n").tries + 1) * 500) "k"]) :=
  ⟨by decide, miss_within_budget_returns_undef (ledgerInit "n") "k" (by decide)
    (by intro b hb; simp [ledgerInit] at hb)⟩

/-- C10: `put` has no exception handler: if the collaborator append throws,
the exception propagates to the caller, no block broadcast is sent, and the
error log (indeed the whole state) is untouched. -/
theorem put_unguarded_propagates
    (append : List Block → BlockData → Except JsError (Block × List Block))
    (s : Ledger) (key : String) (value : Int) (e : JsError)
    (h : append s.blocks ⟨key, value⟩ = Except.error e) :
    Ledger.putWith append s key value = (Except.error e, s, []) := by
  simp [Ledger.putWith, h]

/-- Witness for C10: an append that always throws makes `put` propagate the
error on a fresh ledger, with no broadcast and no error-log entry. -/
theorem put_unguarded_propagates_witness :
    ((fun (_ : List Block) (_ : BlockData) =>
        (Except.error JsError.typeError : Except JsError (Block × List Block)))
       (ledgerInit "n").blocks ⟨"k", 1⟩ = Except.error JsError.typeError) ∧
    Ledger.putWith
      (fun _ _ => Except.error JsError.typeError) (ledgerInit "n") "k" 1 =
      (Except.error JsError.typeError, ledgerInit "n", []) :=
  ⟨rfl, put_unguarded_propagates (fun _ _ => Except.error JsError.typeError)
    (ledgerInit "n") "k" 1 JsError.typeError rfl⟩

/-- One unfold of `getRetryRun` at positive fuel. -/
theorem getRetryRun_succ (key : String) (fuel : Nat) (s : Ledger) :
    getRetryRun key (fuel + 1) s =
      if (Ledger.get s key).2.2.any isRetryTimer then
        ((getRetryRun key fuel (Ledger.get s key).2.1).1,
         (Ledger.get s key).2.2 ++ (getRetryRun key fuel (Ledger.get s key).2.1).2.1,
         (getRetryRun key fuel (Ledger.get s key).2.1).2.2)
      else ((Ledger.get s key).2.1, (Ledger.get s key).2.2, some (Ledger.get s key).1) := rfl

/-- C3: starting from a fresh retry state (`tries = 0`, budget 3) with the
key absent from the chain at every attempt, the `get` call chain sends
exactly three key requests, schedules retries after 500, 1000 and 1500 ms
(attempt times 500, strictly increasing), and the final invocation returns
the sentinel; no fourth request or timer ever occurs, for any surplus
fuel. -/
theorem get_bounded_retry (s : Ledger) (key : String)
    (habs : ∀ b ∈ s.blocks, ∃ d, b.data = some d ∧ d.key ≠ key)
    (h0 : s.tries = 0) (h3 : s.retries = 3) :
    ∀ n : Nat, getRetryRun key (n + 4) s =
      ({ s with tries := 3 },
       [OutMsg.keyRequest key, OutMsg.retryTimer 500 key,
        OutMsg.keyRequest key, OutMsg.retryTimer 1000 key,
        OutMsg.keyRequest key, OutMsg.retryTimer 1500 key],
       some GetResult.sentinel) := by
  intro n
  have e1 : Ledger.get s key =
      (GetResult.undef, { s with tries := 1 },
       [OutMsg.keyRequest key, OutMsg.retryTimer 500 key]) := by
    have h := Ledger.get_miss s key (by omega) habs
    simpa [h0] using h
  have e2 : Ledger.get { s with tries := 1 } key =
      (GetResult.undef, { s with tries := 2 },
       [OutMsg.keyRequest key, OutMsg.retryTimer 1000 key]) := by
    have h := Ledger.get_miss { s with tries := 1 } key
      (by show (1 : Nat) < s.retries; omega) habs
    simpa using h
  have e3 : Ledger.get { s with tries := 2 } key =
      (GetResult.undef, { s with tries := 3 },
       [OutMsg.keyRequest key, OutMsg.retryTimer 1500 key]) := by
    have h := Ledger.get_miss { s with tries := 2 } key
      (by show (2 : Nat) < s.retries; omega) habs
    simpa using h
  have e4 : Ledger.get { s with tries := 3 } key =
      (GetResult.sentinel, { s with tries := 3 }, []) :=
    Ledger.get_exhausted { s with tries := 3 } key
      (by show ¬ (3 : Nat) < s.retries; omega) habs
  have r4 : getRetryRun key (n + 1) { s with tries := 3 } =
      ({ s with tries := 3 }, [], some GetResult.sentinel) := by
    rw [getRetryRun_succ]
    simp [e4, isRetryTimer]
  have r3 : getRetryRun key (n + 2) { s with tries := 2 } =
      ({ s with tries := 3 },
       [OutMsg.keyRequest key, OutMsg.retryTimer 1500 key],
       some GetResult.sentinel) := by
    rw [show n + 2 = (n + 1) + 1 from rfl, getRetryRun_succ]
    simp [e3, isRetryTimer, r4]
  have r2 : getRetryRun key (n + 3) { s with tries := 1 } =
      ({ s with tries := 3 },
       [OutMsg.keyRequest key, OutMsg.retryTimer 1000 key,
        OutMsg.keyRequest key, OutMsg.retryTimer 1500 key],
       some GetResult.sentinel) := by
    rw [show n + 3 = (n + 2) + 1 from rfl, getRetryRun_succ]
    simp [e2, isRetryTimer, r3]
  rw [show n + 4 = (n + 3) + 1 from rfl, getRetryRun_succ]
  simp [e1, isRetryTimer, r2]

/-- Witness for C3: a fresh ledger queried for the never-present key "k",
run with the minimal fuel. -/
theorem get_bounded_retry_witness :
    ((ledgerInit "n").tries = 0) ∧ ((ledgerInit "n").retries = 3) ∧
    getRetryRun "k" 4 (ledgerInit "n") =
      ({ ledgerInit "n" with tries := 3 },
       [OutMsg.keyRequest "k", OutMsg.retryTimer 500 "k",
        OutMsg.keyRequest "k", OutMsg.retryTimer 1000 "k",
        OutMsg.keyRequest "k", OutMsg.retryTimer 1500 "k"],
       some GetResult.sentinel) :=
  ⟨rfl, rfl,
   get_bounded_retry (ledgerInit "n") "k"
     (by intro b hb; simp [ledgerInit] at hb) rfl rfl 0⟩

/-- The `get_history` body on a chain of defined blocks is the in-order
filter of the block data by key, with no error. -/
theorem historyBody_wf (key : String) (bs : List Block)
    (h : ∀ b ∈ bs, ∃ d, b.data = some d) :
    historyBody key bs =
      Except.ok ((bs.filterMap (fun b => b.data)).filter (fun d => d.key == key)) := by
  induction bs with
  | nil => rfl
  | cons b rest ih =>
    obtain ⟨d, hd⟩ := h b (List.mem_cons_self b rest)
    have hrest := ih (fun c hc => h c (List.mem_cons_of_mem b hc))
    simp [historyBody, hd, hrest, List.filterMap_cons, List.filter_cons]

/-- C6: for every key, `get_history` returns the data of every block whose
key matches, in chain order (oldest first, as stored), leaves the state
unchanged, and sends no network request and schedules no retry. -/
theorem get_history_complete_ordered (s : Ledger) (key : String)
    (hwf : ∀ b ∈ s.blocks, ∃ d, b.data = some d) :
    Ledger.get_history s key =
      (some ((s.blocks.filterMap (fun b => b.data)).filter (fun d => d.key == key)),
       s, []) := by
  simp [Ledger.get_history, historyBody_wf key s.blocks hwf]

/-- Witness for C6: after writes x=1, y=9, x=2 the history of "x" is
[{x,1}, {x,2}], oldest first. -/
theorem get_history_complete_ordered_witness :
    (∀ b ∈ ({ ledgerInit "n" with blocks :=
        [⟨0, some ⟨"x", 1⟩⟩, ⟨1, some ⟨"y", 9⟩⟩, ⟨2, some ⟨"x", 2⟩⟩] } : Ledger).blocks,
      ∃ d, b.data = some d) ∧
    Ledger.get_history
        { ledgerInit "n" with blocks :=
          [⟨0, some ⟨"x", 1⟩⟩, ⟨1, some ⟨"y", 9⟩⟩, ⟨2, some ⟨"x", 2⟩⟩] } "x" =
      (some [⟨"x", 1⟩, ⟨"x", 2⟩],
       { ledgerInit "n" with blocks :=
         [⟨0, some ⟨"x", 1⟩⟩, ⟨1, some ⟨"y", 9⟩⟩, ⟨2, some ⟨"x", 2⟩⟩] },
       []) := by
  constructor
  · intro b hb
    simp [ledgerInit] at hb
    rcases hb with rfl | rfl | rfl <;> exact ⟨_, rfl⟩
  · have h := get_history_complete_ordered
      { ledgerInit "n" with blocks :=
        [⟨0, some ⟨"x", 1⟩⟩, ⟨1, some ⟨"y", 9⟩⟩, ⟨2, some ⟨"x", 2⟩⟩] } "x"
      (by intro b hb
          simp [ledgerInit] at hb
          rcases hb with rfl | rfl | rfl <;> exact ⟨_, rfl⟩)
    simpa using h

/-! Reconciliation-session lemmas. -/

/-- A foreign block delivered while the session stays incomplete: the block
is recorded and added, nothing is sorted or cleared. -/
theorem handleRequestedBlock_open (s : Ledger) (b : Block) (sender : String)
    (hp : sender ≠ s.name)
    (hne : s.missing_blocks.length ≠ s.received_blocks.length + 1) :
    Ledger.handleRequestedBlock s b sender =
      { s with received_blocks := s.received_blocks ++ [b],
               blocks := chainAdd s.blocks b } := by
  simp [Ledger.handleRequestedBlock, hp, hne]

/-- A foreign block whose delivery makes the received count reach the
missing count: the chain is sorted and the session sets are cleared. -/
theorem handleRequestedBlock_close (s : Ledger) (b : Block) (sender : String)
    (hp : sender ≠ s.name)
    (heq : s.missing_blocks.length = s.received_blocks.length + 1) :
    Ledger.handleRequestedBlock s b sender =
      { s with blocks := sortBlocks (chainAdd s.blocks b),
               missing_blocks := [], received_blocks := [] } := by
  simp [Ledger.handleRequestedBlock, hp, heq]

/-- Delivering strictly fewer foreign blocks than the session still misses
leaves the session open: the blocks accumulate in `received_blocks` and in
the chain via `add`, and no sort or clear happens. -/
theorem deliverAll_open (sender : String) (bs : List Block) : ∀ s : Ledger,
    sender ≠ s.name →
    s.received_blocks.length + bs.length < s.missing_blocks.length →
    deliverAll s bs sender =
      { s with received_blocks := s.received_blocks ++ bs,
               blocks := addAll s.blocks bs } := by
  induction bs with
  | nil => intro s hp h; simp [deliverAll, addAll]
  | cons b rest ih =>
    intro s hp h
    have hne : s.missing_blocks.length ≠ s.received_blocks.length + 1 := by
      simp only [List.length_cons] at h; omega
    have hstep : deliverAll s (b :: rest) sender =
        deliverAll (Ledger.handleRequestedBlock s b sender) rest sender := rfl
    rw [hstep, handleRequestedBlock_open s b sender hp hne]
    rw [ih { s with received_blocks := s.received_blocks ++ [b],
                    blocks := chainAdd s.blocks b } hp
          (by simp only [List.length_cons] at h
              simp only [List.length_append, List.length_cons, List.length_nil]
              omega)]
    simp [addAll, List.append_assoc]

/-- Delivering exactly as many foreign blocks as the session misses closes
it: on the last delivery the chain is sorted and the session cleared. -/
theorem deliverAll_close (sender : String) (bs : List Block) : ∀ s : Ledger,
    sender ≠ s.name →
    s.received_blocks.length + bs.length = s.missing_blocks.length →
    bs ≠ [] →
    deliverAll s bs sender =
      { s with blocks := sortBlocks (addAll s.blocks bs),
               missing_blocks := [], received_blocks := [] } := by
  induction bs with
  | nil => intro s _ _ hne; exact absurd rfl hne
  | cons b rest ih =>
    intro s hp h _
    cases rest with
    | nil =>
      have heq : s.missing_blocks.length = s.received_blocks.length + 1 := by
        simp only [List.length_cons, List.length_nil] at h; omega
      have hstep : deliverAll s [b] sender = Ledger.handleRequestedBlock s b sender := rfl
      rw [hstep, handleRequestedBlock_close s b sender hp heq]
      simp [addAll]
    | cons b2 rest2 =>
      have hne : s.missing_blocks.length ≠ s.received_blocks.length + 1 := by
        simp only [List.length_cons] at h; omega
      have hstep : deliverAll s (b :: b2 :: rest2) sender =
          deliverAll (Ledger.handleRequestedBlock s b sender) (b2 :: rest2) sender := rfl
      rw [hstep, handleRequestedBlock_open s b sender hp hne]
      rw [ih { s with received_blocks := s.received_blocks ++ [b],
                      blocks := chainAdd s.blocks b } hp
            (by simp only [List.length_cons] at h
                simp only [List.length_append, List.length_cons, List.length_nil]
                omega)
            (by simp)]
      simp [addAll]

/-- C2: in a reconciliation session that misses `n` blocks and has received
none, delivering foreign blocks one at a time neither sorts nor clears
anything while fewer than `n` have arrived - the state is exactly the
accumulation of pushes and idempotent adds - and on the delivery that makes
the received count reach the missing count the chain is re-sorted into
canonical order and both session sets are reset to empty. -/
theorem reconciliation_session_completion (s : Ledger) (bs : List Block) (sender : String)
    (hp : sender ≠ s.name)
    (hrecv : s.received_blocks = [])
    (hn : bs.length = s.missing_blocks.length)
    (hpos : bs ≠ []) :
    (∀ k, k < bs.length →
      deliverAll s (bs.take k) sender =
        { s with received_blocks := bs.take k,
                 blocks := addAll s.blocks (bs.take k) }) ∧
    deliverAll s bs sender =
      { s with blocks := sortBlocks (addAll s.blocks bs),
               missing_blocks := [], received_blocks := [] } := by
  constructor
  · intro k hk
    have hlt : s.received_blocks.length + (bs.take k).length < s.missing_blocks.length := by
      rw [hrecv]
      simp only [List.length_nil, List.length_take]
      omega
    have h := deliverAll_open sender (bs.take k) s hp hlt
    rw [hrecv] at h
    simpa using h
  · exact deliverAll_close sender bs s hp (by rw [hrecv]; simpa using hn) hpos

/-- Witness for C2: a session missing blocks 5 and 7, fed the two matching
blocks from peer "b": no sort or clear after the first delivery, sort and
clear exactly on the second. -/
theorem reconciliation_session_completion_witness :
    (("b" : String) ≠ ({ ledgerInit "a" with missing_blocks := [5, 7] } : Ledger).name) ∧
    (({ ledgerInit "a" with missing_blocks := [5, 7] } : Ledger).received_blocks = []) ∧
    (([⟨5, some ⟨"p", 1⟩⟩, ⟨7, some ⟨"q", 2⟩⟩] : List Block).length =
      ({ ledgerInit "a" with missing_blocks := [5, 7] } : Ledger).missing_blocks.length) ∧
    (([⟨5, some ⟨"p", 1⟩⟩, ⟨7, some ⟨"q", 2⟩⟩] : List Block) ≠ []) ∧
    ((∀ k, k < ([⟨5, some ⟨"p", 1⟩⟩, ⟨7, some ⟨"q", 2⟩⟩] : List Block).length →
      deliverAll { ledgerInit "a" with missing_blocks := [5, 7] }
          (([⟨5, some ⟨"p", 1⟩⟩, ⟨7, some ⟨"q", 2⟩⟩] : List Block).take k) "b" =
        { ({ ledgerInit "a" with missing_blocks := [5, 7] } : Ledger) with
          received_blocks := ([⟨5, some ⟨"p", 1⟩⟩, ⟨7, some ⟨"q", 2⟩⟩] : List Block).take k,
          blocks := addAll ({ ledgerInit "a" with missing_blocks := [5, 7] } : Ledger).blocks
            (([⟨5, some ⟨"p", 1⟩⟩, ⟨7, some ⟨"q", 2⟩⟩] : List Block).take k) }) ∧
    deliverAll { ledgerInit "a" with missing_blocks := [5, 7] }
        [⟨5, some ⟨"p", 1⟩⟩, ⟨7, some ⟨"q", 2⟩⟩] "b" =
      { ({ ledgerInit "a" with missing_blocks := [5, 7] } : Ledger) with
        blocks := sortBlocks (addAll ({ ledgerInit "a" with missing_blocks := [5, 7] } : Ledger).blocks
          [⟨5, some ⟨"p", 1⟩⟩, ⟨7, some ⟨"q", 2⟩⟩]),
        missing_blocks := [], received_blocks := [] }) :=
  ⟨by decide, rfl, rfl, by decide,
   reconciliation_session_completion { ledgerInit "a" with missing_blocks := [5, 7] }
     [⟨5, some ⟨"p", 1⟩⟩, ⟨7, some ⟨"q", 2⟩⟩] "b" (by decide) rfl rfl (by decide)⟩

/-! Lemmas about the first-occurrence filter of `get_all`. -/

/-- On entries that are all defined, the `get_all` filter throws nothing and
computes its pure value. -/
theorem dedupEntries_map_some (es : List BlockData) : ∀ seen : List String,
    dedupEntries seen (es.map some) = Except.ok (dedupPure seen es) := by
  induction es with
  | nil => intro seen; rfl
  | cons d rest ih =>
    intro seen
    simp [dedupEntries, dedupPure, ih (d.key :: seen)]

/-- The first-occurrence filter returns a subsequence of its input, so the
output order is the input (newest-first) order. -/
theorem dedupPure_sublist (es : List BlockData) : ∀ seen : List String,
    (dedupPure seen es).Sublist es := by
  induction es with
  | nil => intro seen; simp [dedupPure]
  | cons d rest ih =>
    intro seen
    by_cases h : d.key ∈ seen
    · simp only [dedupPure, if_pos h]
      exact List.Sublist.cons d (ih (d.key :: seen))
    · simp only [dedupPure, if_neg h]
      exact List.Sublist.cons₂ d (ih (d.key :: seen))

/-- The first-occurrence filter yields pairwise distinct keys, none of them
previously seen. -/
theorem dedupPure_keys (es : List BlockData) : ∀ seen : List String,
    ((dedupPure seen es).map (fun d => d.key)).Nodup ∧
    ∀ d ∈ dedupPure seen es, d.key ∉ seen := by
  induction es with
  | nil => intro seen; simp [dedupPure]
  | cons d rest ih =>
    intro seen
    by_cases h : d.key ∈ seen
    · simp only [dedupPure, if_pos h]
      refine ⟨(ih (d.key :: seen)).1, fun c hc hmem => ?_⟩
      exact (ih (d.key :: seen)).2 c hc (List.mem_cons_of_mem _ hmem)
    · simp only [dedupPure, if_neg h, List.map_cons, List.nodup_cons]
      refine ⟨⟨?_, (ih (d.key :: seen)).1⟩, ?_⟩
      · intro hmem
        obtain ⟨c, hc, hck⟩ := List.mem_map.mp hmem
        exact (ih (d.key :: seen)).2 c hc (by rw [hck]; exact List.mem_cons_self _ _)
      · intro c hc
        rcases List.mem_cons.mp hc with rfl | hc2
        · exact h
        · intro hmem
          exact (ih (d.key :: seen)).2 c hc2 (List.mem_cons_of_mem _ hmem)

/-- The first-occurrence filter preserves, for every key not yet seen, the
first entry carrying that key. -/
theorem dedupPure_find (es : List BlockData) : ∀ (seen : List String) (k : String),
    k ∉ seen →
    (dedupPure seen es).find? (fun d => d.key == k) = es.find? (fun d => d.key == k) := by
  induction es with
  | nil => intro seen k hk; rfl
  | cons d rest ih =>
    intro seen k hk
    have hk' : ∀ hcase : d.key ≠ k, k ∉ d.key :: seen := by
      intro hdk
      simp only [List.mem_cons, not_or]
      exact ⟨fun he => hdk he.symm, hk⟩
    by_cases h : d.key ∈ seen
    · have hdk : d.key ≠ k := fun he => hk (he ▸ h)
      have hne : (d.key == k) = false := beq_eq_false_iff_ne.mpr hdk
      simp only [dedupPure, if_pos h]
      rw [ih (d.key :: seen) k (hk' hdk)]
      simp [hne]
    · by_cases hdk : d.key = k
      · have hpos : (d.key == k) = true := by simp [hdk]
        simp only [dedupPure, if_neg h]
        simp [hpos]
      · have hne : (d.key == k) = false := beq_eq_false_iff_ne.mpr hdk
        simp only [dedupPure, if_neg h]
        simp only [List.find?_cons, hne]
        exact ih (d.key :: seen) k (hk' hdk)

/-- On a list with pairwise distinct keys, filtering by one key yields the
(at most one) entry that `find?` locates. -/
theorem filter_key_of_nodup (l : List BlockData) (k : String)
    (hn : (l.map (fun d => d.key)).Nodup) :
    l.filter (fun d => d.key == k) = (l.find? (fun d => d.key == k)).toList := by
  induction l with
  | nil => rfl
  | cons d rest ih =>
    simp only [List.map_cons, List.nodup_cons] at hn
    by_cases hdk : d.key = k
    · have hfil : rest.filter (fun d => d.key == k) = [] := by
        refine List.filter_eq_nil_iff.mpr (fun c hc => ?_)
        have : c.key ≠ d.key := by
          intro he
          exact hn.1 (List.mem_map.mpr ⟨c, hc, he⟩)
        simp [hdk ▸ this]
      have hpos : (d.key == k) = true := by simp [hdk]
      simp [List.filter_cons, List.find?_cons, hpos, hfil]
    · have hne : (d.key == k) = false := beq_eq_false_iff_ne.mpr hdk
      simp only [List.filter_cons, List.find?_cons, hne, cond_false]
      exact ih hn.2

/-- On a chain whose blocks all carry data, mapping to the data values never
produces an undefined entry. -/
theorem map_data_of_wf (bs : List Block) (h : ∀ b ∈ bs, ∃ d, b.data = some d) :
    bs.map (fun b => b.data) = (bs.filterMap (fun b => b.data)).map some := by
  induction bs with
  | nil => rfl
  | cons b rest ih =>
    obtain ⟨d, hd⟩ := h b (List.mem_cons_self b rest)
    simp [hd, List.filterMap_cons, ih (fun c hc => h c (List.mem_cons_of_mem b hc))]

/-- On a chain whose blocks all carry data, the `get_all` body throws
nothing and computes the first-occurrence filter of the reversed data. -/
theorem allBody_wf (bs : List Block) (h : ∀ b ∈ bs, ∃ d, b.data = some d) :
    allBody bs = Except.ok (dedupPure [] (bs.filterMap (fun b => b.data)).reverse) := by
  unfold allBody
  rw [map_data_of_wf bs h, ← List.map_reverse]
  exact dedupEntries_map_some _ []

/-- C4: after writing value 1 then value 2 under the same key on a chain
that held no block for that key, `get` returns the data with value 2 as a
first-scan hit, and `get_all` yields a list holding exactly one entry for
that key, with value 2; in general that list has pairwise distinct keys, is
a subsequence of the newest-first data sequence, and maps every key to the
data of its most recently appended block (the first match of the reversed
chain). -/
theorem latest_wins (s : Ledger) (x : String)
    (hwf : ∀ b ∈ s.blocks, ∃ d, b.data = some d ∧ d.key ≠ x)
    (s2 : Ledger)
    (hs2 : s2 = (Ledger.put ((Ledger.put s x 1).2.1) x 2).2.1) :
    ∃ l : List BlockData,
      Ledger.get s2 x = (GetResult.data ⟨x, 2⟩, { s2 with tries := 0 }, []) ∧
      (Ledger.get_all s2).1 = some l ∧
      l.filter (fun d => d.key == x) = [⟨x, 2⟩] ∧
      (l.map (fun d => d.key)).Nodup ∧
      l.Sublist ((s2.blocks.filterMap (fun b => b.data)).reverse) ∧
      ∀ k : String, l.find? (fun d => d.key == k) =
        ((s2.blocks.filterMap (fun b => b.data)).reverse).find? (fun d => d.key == k) := by
  have hblocks : s2.blocks =
      s.blocks ++ [⟨s.blocks.length, some ⟨x, 1⟩⟩, ⟨s.blocks.length + 1, some ⟨x, 2⟩⟩] := by
    rw [hs2]; simp [Ledger.put, Ledger.putWith, chainPut]
  have hrev : s2.blocks.reverse =
      ⟨s.blocks.length + 1, some ⟨x, 2⟩⟩ :: ⟨s.blocks.length, some ⟨x, 1⟩⟩ :: s.blocks.reverse := by
    rw [hblocks]; simp
  have hfind : findDataByKey x s2.blocks.reverse = Except.ok (some ⟨x, 2⟩) := by
    rw [hrev]; simp [findDataByKey]
  have hwf2 : ∀ b ∈ s2.blocks, ∃ d, b.data = some d := by
    rw [hblocks]
    intro b hb
    rcases List.mem_append.mp hb with hb | hb
    · exact (hwf b hb).imp fun d hd => hd.1
    · simp only [List.mem_cons, List.not_mem_nil, or_false] at hb
      rcases hb with rfl | rfl
      · exact ⟨_, rfl⟩
      · exact ⟨_, rfl⟩
  have hfm : s2.blocks.filterMap (fun b => b.data) =
      (s.blocks.filterMap (fun b => b.data)) ++ [⟨x, 1⟩, ⟨x, 2⟩] := by
    rw [hblocks]; simp [List.filterMap_append, List.filterMap_cons]
  have hes : (s2.blocks.filterMap (fun b => b.data)).reverse =
      ⟨x, 2⟩ :: ⟨x, 1⟩ :: (s.blocks.filterMap (fun b => b.data)).reverse := by
    rw [hfm]; simp
  have hall := allBody_wf s2.blocks hwf2
  refine ⟨dedupPure [] (s2.blocks.filterMap (fun b => b.data)).reverse,
    ?_, ?_, ?_, ?_, ?_, ?_⟩
  · simp [Ledger.get, hfind]
  · simp [Ledger.get_all, hall]
  · have hnodup := (dedupPure_keys ((s2.blocks.filterMap (fun b => b.data)).reverse) []).1
    rw [filter_key_of_nodup _ x hnodup,
        dedupPure_find ((s2.blocks.filterMap (fun b => b.data)).reverse) [] x
          (List.not_mem_nil x)]
    rw [hes]
    simp
  · exact (dedupPure_keys ((s2.blocks.filterMap (fun b => b.data)).reverse) []).1
  · exact dedupPure_sublist ((s2.blocks.filterMap (fun b => b.data)).reverse) []
  · intro k
    exact dedupPure_find ((s2.blocks.filterMap (fun b => b.data)).reverse) [] k
      (List.not_mem_nil k)

/-- Witness for C4: the two writes on a fresh ledger. -/
theorem latest_wins_witness :
    (∀ b ∈ (ledgerInit "n").blocks, ∃ d, b.data = some d ∧ d.key ≠ "x") ∧
    (∃ l : List BlockData,
      Ledger.get ((Ledger.put ((Ledger.put (ledgerInit "n") "x" 1).2.1) "x" 2).2.1) "x" =
        (GetResult.data ⟨"x", 2⟩,
         { ((Ledger.put ((Ledger.put (ledgerInit "n") "x" 1).2.1) "x" 2).2.1) with tries := 0 },
         []) ∧
      (Ledger.get_all ((Ledger.put ((Ledger.put (ledgerInit "n") "x" 1).2.1) "x" 2).2.1)).1 =
        some l ∧
      l.filter (fun d => d.key == "x") = [⟨"x", 2⟩] ∧
      (l.map (fun d => d.key)).Nodup ∧
      l.Sublist
        ((((Ledger.put ((Ledger.put (ledgerInit "n") "x" 1).2.1) "x" 2).2.1).blocks.filterMap
          (fun b => b.data)).reverse) ∧
      ∀ k : String, l.find? (fun d => d.key == k) =
        ((((Ledger.put ((Ledger.put (ledgerInit "n") "x" 1).2.1) "x" 2).2.1).blocks.filterMap
          (fun b => b.data)).reverse).find? (fun d => d.key == k)) :=
  ⟨by intro b hb; simp [ledgerInit] at hb,
   latest_wins (ledgerInit "n") "x" (by intro b hb; simp [ledgerInit] at hb) _ rfl⟩
